import Mathlib

/-!
Verification development for the Stock-Market-AI dashboard (src/app.py).

The core pipeline under study is:
  symbol normalization (StockAnalyzer.get_stock_data, lines 24-30),
  series validation (StockAnalyzer.process_stock_data, lines 62-76),
  indicator computation (main, lines 198-232),
  currency formatting (StockAnalyzer.format_currency, lines 84-88).

Numeric pandas/numpy values are modelled by PFloat: an exact rational
together with the IEEE special values inf, -inf and NaN, with the
arithmetic the pipeline actually exercises (NaN propagation, signed
division by zero, saturating arithmetic with infinities).  Exact
rationals are represented by the executable type Q (numerator and
positive denominator in lowest terms), so every pipeline value can be
computed inside the kernel.
-/

/-- An exact rational: integer numerator and natural denominator.  All
values built through the Q operations are in lowest terms with positive
denominator, so structural equality coincides with value equality. -/
structure Q where
  num : Int
  den : Nat
deriving DecidableEq

namespace Q

/-- Exact division of an integer by a natural number that divides it. -/
def intDivExact (n : Int) (g : Nat) : Int :=
  if 0 ≤ n then Int.ofNat (n.toNat / g) else -(Int.ofNat ((-n).toNat / g))

/-- Build a rational in lowest terms from a numerator and denominator. -/
def mk' (n : Int) (d : Nat) : Q :=
  if d = 0 then ⟨0, 0⟩
  else
    let g := Nat.gcd n.natAbs d
    ⟨intDivExact n g, d / g⟩

/-- The integer n as a rational. -/
def ofInt (n : Int) : Q := ⟨n, 1⟩

def add (a b : Q) : Q := mk' (a.num * b.den + b.num * a.den) (a.den * b.den)

def neg (a : Q) : Q := ⟨-a.num, a.den⟩

def sub (a b : Q) : Q := add a (neg b)

def mul (a b : Q) : Q := mk' (a.num * b.num) (a.den * b.den)

def div (a b : Q) : Q :=
  let n := a.num * (b.den : Int)
  let d := (a.den : Int) * b.num
  if d < 0 then mk' (-n) (-d).toNat else mk' n d.toNat

/-- Strict order, valid for representations with positive denominator. -/
def blt (a b : Q) : Bool := decide (a.num * (b.den : Int) < b.num * (a.den : Int))

/-- Non-strict order, valid for representations with positive denominator. -/
def ble (a b : Q) : Bool := decide (a.num * (b.den : Int) ≤ b.num * (a.den : Int))

/-- Floor of a rational (valid for positive denominator). -/
def floor (q : Q) : Int :=
  if 0 ≤ q.num then Int.ofNat (q.num.toNat / q.den)
  else -(Int.ofNat (((-q.num).toNat + q.den - 1) / q.den))

/-- Truncation toward zero, as the Python builtin int() rounds floats. -/
def trunc (q : Q) : Int :=
  if 0 ≤ q.num then Int.ofNat (q.num.toNat / q.den)
  else -(Int.ofNat ((-q.num).toNat / q.den))

/-- Round to the nearest integer, ties to even: the rounding used when
Python formats a float with a fixed number of decimals. -/
def rhe (q : Q) : Int :=
  let f := q.floor
  let r := sub q (ofInt f)
  if r.blt (mk' 1 2) then f
  else if (mk' 1 2).blt r then f + 1
  else if f % 2 = 0 then f else f + 1

end Q

/-- A pandas/numpy floating value: a finite rational, an infinity, or NaN.
Finite values are kept exact; the claims only involve values where binary
rounding is exact. -/
inductive PFloat where
  | nan : PFloat
  | inf : PFloat
  | ninf : PFloat
  | fin (q : Q) : PFloat
deriving DecidableEq

namespace PFloat

/-- numpy addition: NaN propagates, inf + (-inf) = NaN, infinities absorb. -/
def add : PFloat → PFloat → PFloat
  | nan, _ => nan
  | _, nan => nan
  | fin a, fin b => fin (a.add b)
  | inf, ninf => nan
  | ninf, inf => nan
  | inf, _ => inf
  | _, inf => inf
  | ninf, _ => ninf
  | _, ninf => ninf

/-- numpy negation. -/
def neg : PFloat → PFloat
  | nan => nan
  | inf => ninf
  | ninf => inf
  | fin a => fin a.neg

/-- numpy subtraction, as addition of the negation. -/
def sub (x y : PFloat) : PFloat := add x (neg y)

/-- numpy multiplication: NaN propagates, inf * 0 = NaN, signs multiply. -/
def mul : PFloat → PFloat → PFloat
  | nan, _ => nan
  | _, nan => nan
  | fin a, fin b => fin (a.mul b)
  | inf, fin b => if 0 < b.num then inf else if b.num < 0 then ninf else nan
  | fin a, inf => if 0 < a.num then inf else if a.num < 0 then ninf else nan
  | ninf, fin b => if 0 < b.num then ninf else if b.num < 0 then inf else nan
  | fin a, ninf => if 0 < a.num then ninf else if a.num < 0 then inf else nan
  | inf, inf => inf
  | inf, ninf => ninf
  | ninf, inf => ninf
  | ninf, ninf => inf

/-- numpy division: NaN propagates; x/0 is a signed infinity for x nonzero
and NaN for 0/0; finite/inf = 0; inf/inf = NaN. -/
def div : PFloat → PFloat → PFloat
  | nan, _ => nan
  | _, nan => nan
  | fin a, fin b =>
      if b.num = 0 then (if 0 < a.num then inf else if a.num < 0 then ninf else nan)
      else fin (a.div b)
  | inf, fin b => if b.num < 0 then ninf else inf
  | ninf, fin b => if b.num < 0 then inf else ninf
  | fin _, inf => fin (Q.ofInt 0)
  | fin _, ninf => fin (Q.ofInt 0)
  | inf, inf => nan
  | inf, ninf => nan
  | ninf, inf => nan
  | ninf, ninf => nan

/-- The comparison x > 0 as pandas evaluates it: False for NaN. -/
def gtZero : PFloat → Bool
  | nan => false
  | inf => true
  | ninf => false
  | fin a => decide (0 < a.num)

/-- The comparison x < 0 as pandas evaluates it: False for NaN. -/
def ltZero : PFloat → Bool
  | nan => false
  | inf => false
  | ninf => true
  | fin a => decide (a.num < 0)

end PFloat

/-- Sum of a list of pandas values (NaN-propagating, like a plain sum). -/
def psum (l : List PFloat) : PFloat := l.foldr PFloat.add (PFloat.fin (Q.ofInt 0))

/-- pandas Series.rolling(window=w).mean() with the default min_periods:
at index i the mean of the w values ending at i when at least w values
exist, NaN before that.  A NaN inside a full window makes the result NaN
(fewer than min_periods real observations). -/
def rollingMean (w : Nat) (l : List PFloat) : List PFloat :=
  (List.range l.length).map (fun i =>
    if w ≤ i + 1 then
      PFloat.div (psum ((l.take (i + 1)).drop (i + 1 - w))) (PFloat.fin (Q.ofInt w))
    else PFloat.nan)

/-- pandas Series.diff(): NaN at index 0, sequential differences after. -/
def pdiff : List PFloat → List PFloat
  | [] => []
  | x :: xs => PFloat.nan :: List.zipWith PFloat.sub xs (x :: xs)

/-- Line 229: gain = (delta.where(delta > 0, 0)).rolling(window=14).mean().
Note delta.where replaces the leading NaN of diff by 0 (NaN > 0 is False). -/
def avgGain (close : List PFloat) : List PFloat :=
  rollingMean 14 ((pdiff close).map (fun d => if d.gtZero then d else PFloat.fin (Q.ofInt 0)))

/-- Line 230: loss = (-delta.where(delta < 0, 0)).rolling(window=14).mean(). -/
def avgLoss (close : List PFloat) : List PFloat :=
  rollingMean 14
    (((pdiff close).map (fun d => if d.ltZero then d else PFloat.fin (Q.ofInt 0))).map PFloat.neg)

/-- Line 231: rs = gain / loss (elementwise). -/
def rsSeries (close : List PFloat) : List PFloat :=
  List.zipWith PFloat.div (avgGain close) (avgLoss close)

/-- Line 232: df['RSI'] = 100 - (100 / (1 + rs)) (elementwise). -/
def rsiSeries (close : List PFloat) : List PFloat :=
  (rsSeries close).map (fun r =>
    PFloat.sub (PFloat.fin (Q.ofInt 100))
      (PFloat.div (PFloat.fin (Q.ofInt 100)) (PFloat.add (PFloat.fin (Q.ofInt 1)) r)))

/-! ## Symbol normalization (StockAnalyzer.get_stock_data, lines 24-30) -/

/-- The market selector radio button: 'Indian Stocks' or 'US Stocks'.
The spec calls these Domestic and Foreign. -/
inductive Market where
  | domestic : Market
  | foreign : Market
deriving DecidableEq

/-- The character list ['.','N','S']. -/
def sNS : List Char := ['.', 'N', 'S']

/-- The character list ['.','B','O']. -/
def sBO : List Char := ['.', 'B', 'O']

/-- Python str.replace(pat, rep), fuelled so the recursion is structural:
scan left to right, replacing each non-overlapping occurrence of pat and
resuming after the replaced text.  One unit of fuel is spent per
character consumed, so fuel = length of the scanned list suffices. -/
def replaceAllF (pat rep : List Char) : Nat → List Char → List Char
  | _, [] => []
  | 0, l => l
  | fuel + 1, c :: rest =>
    if pat.isPrefixOf (c :: rest) then
      rep ++ replaceAllF pat rep fuel (rest.drop (pat.length - 1))
    else
      c :: replaceAllF pat rep fuel rest

/-- Python str.replace(pat, rep) on a whole list. -/
def replaceAll (pat rep l : List Char) : List Char := replaceAllF pat rep l.length l

/-- Whether pat occurs as a contiguous subsequence somewhere in the list. -/
def hasMatch (pat : List Char) : List Char → Bool
  | [] => pat.isEmpty
  | c :: rest => pat.isPrefixOf (c :: rest) || hasMatch pat rest

/-- Lines 24-30 of get_stock_data: for 'Indian Stocks' append '.NS' unless
the symbol already ends in '.NS' or '.BO'; otherwise ('US Stocks') remove
every occurrence of '.NS' and then every occurrence of '.BO'. -/
def normalizeSymbol (symbol : List Char) : Market → List Char
  | Market.domestic =>
      if sNS.isSuffixOf symbol || sBO.isSuffixOf symbol then symbol
      else symbol ++ sNS
  | Market.foreign => replaceAll sBO [] (replaceAll sNS [] symbol)

/-! ## Series validation (StockAnalyzer.process_stock_data, lines 62-76) -/

/-- A pandas DataFrame as the pipeline sees it: a timestamp index and a
list of named columns. -/
structure Frame where
  index : List Int
  cols : List (String × List PFloat)
deriving DecidableEq

namespace Frame

/-- pandas df.empty: true when an axis has length zero. -/
def isEmptyDf (df : Frame) : Bool := df.index.isEmpty || df.cols.isEmpty

/-- Column membership, as in the check `col in df.columns`. -/
def hasCol (df : Frame) (c : String) : Bool := df.cols.any (fun p => p.1 == c)

/-- Column access df[c] (the validated pipeline only reads columns that
exist; a missing column reads as the empty series here). -/
def getCol (df : Frame) (c : String) : List PFloat :=
  ((df.cols.find? (fun p => p.1 == c)).map Prod.snd).getD []

/-- Column assignment df[c] = v: overwrite in place if present, else
append a new column. -/
def setCol (df : Frame) (c : String) (v : List PFloat) : Frame :=
  if df.hasCol c then
    ⟨df.index, df.cols.map (fun p => if p.1 == c then (c, v) else p)⟩
  else
    ⟨df.index, df.cols ++ [(c, v)]⟩

end Frame

/-- The list ['Open','High','Low','Close','Volume'] from line 67. -/
def requiredColumns : List String := ["Open", "High", "Low", "Close", "Volume"]

/-- process_stock_data (lines 62-76).  The returned pair is the Python
return value together with the list of st.error messages the call emits:
absent or empty input returns None silently; a frame missing a required
column returns None after st.error; otherwise the frame itself is
returned unchanged (no sorting, no per-bar repair). -/
def process_stock_data : Option Frame → Option Frame × List String
  | none => (none, [])
  | some df =>
      if df.isEmptyDf then (none, [])
      else if requiredColumns.all (fun c => df.hasCol c) then (some df, [])
      else (none, ["Missing required columns in data"])

/-- Strictly ascending timestamp order. -/
def sortedAsc : List Int → Bool
  | [] => true
  | [_] => true
  | a :: b :: t => decide (a < b) && sortedAsc (b :: t)

/-! ## Indicator computation (main, lines 198-232) -/

/-- pandas Series.iloc[-k] for k > 0: the k-th element from the end, an
IndexError (modelled as none) when fewer than k elements exist. -/
def ilocNeg (l : List PFloat) (k : Nat) : Option PFloat :=
  if 0 < k ∧ k ≤ l.length then l.get? (l.length - k) else none

/-- iloc[-1] at a call site where the series is known non-empty. -/
def lastD (l : List PFloat) : PFloat := (l.get? (l.length - 1)).getD PFloat.nan

/-- pandas Series.max(): maximum ignoring NaN, NaN on an empty series. -/
def pmax2 : PFloat → PFloat → PFloat
  | PFloat.nan, y => y
  | x, PFloat.nan => x
  | PFloat.fin a, PFloat.fin b => if a.ble b then PFloat.fin b else PFloat.fin a
  | PFloat.inf, _ => PFloat.inf
  | _, PFloat.inf => PFloat.inf
  | PFloat.ninf, y => y
  | x, PFloat.ninf => x

def pmax (l : List PFloat) : PFloat := l.foldr pmax2 PFloat.nan

/-- pandas Series.min(): minimum ignoring NaN, NaN on an empty series. -/
def pmin2 : PFloat → PFloat → PFloat
  | PFloat.nan, y => y
  | x, PFloat.nan => x
  | PFloat.fin a, PFloat.fin b => if a.ble b then PFloat.fin a else PFloat.fin b
  | PFloat.ninf, _ => PFloat.ninf
  | _, PFloat.ninf => PFloat.ninf
  | PFloat.inf, y => y
  | x, PFloat.inf => x

def pmin (l : List PFloat) : PFloat := l.foldr pmin2 PFloat.nan

/-- pandas Series.mean(): sum divided by length (NaN on an empty series;
the volume column the pipeline applies it to carries no NaN). -/
def pmean (l : List PFloat) : PFloat := PFloat.div (psum l) (PFloat.fin (Q.ofInt l.length))

/-- The Python builtin int() on a float: truncation toward zero for a
finite value, a raised error (none) on NaN or an infinity. -/
def pInt : PFloat → Option Int
  | PFloat.fin q => some q.trunc
  | _ => none

/-- Lines 214-215: df['MA50'] and df['MA200'] are assigned onto the frame
itself from its Close column. -/
def addIndicatorsMA (df : Frame) : Frame :=
  let df1 := df.setCol "MA50" (rollingMean 50 (df.getCol "Close"))
  df1.setCol "MA200" (rollingMean 200 (df1.getCol "Close"))

/-- Lines 228-232: df['RSI'] is assigned onto the frame itself. -/
def addRSI (df : Frame) : Frame := df.setCol "RSI" (rsiSeries (df.getCol "Close"))

/-- Everything of the key-statistics and indicator section that reaches
the screen for one run. -/
structure RenderOut where
  latestPrice : PFloat
  changePct : PFloat
  periodHigh : PFloat
  periodLow : PFloat
  avgVolume : Int
  ma50 : Option PFloat
  ma200 : Option PFloat
  rsi : List PFloat
  finalDf : Frame
deriving DecidableEq

/-- Lines 198-232 of main: the metrics and indicator block.  The whole
block sits inside one try/except, so the first raising operation (in
particular Close.iloc[-2] on a series of fewer than 2 bars) aborts every
metric, the moving averages and the RSI chart; none is that aborted
state.  The moving-average columns are shown only under the gates
len(df) >= 50 and len(df) >= 200. -/
def renderStats (df : Frame) : Option RenderOut :=
  match ilocNeg (df.getCol "Close") 1, ilocNeg (df.getCol "Close") 2,
      pInt (pmean (df.getCol "Volume")) with
  | some latest, some prev, some av =>
      let change := PFloat.sub latest prev
      let pct := PFloat.mul (PFloat.div change prev) (PFloat.fin (Q.ofInt 100))
      let df2 := addIndicatorsMA df
      let n := df2.index.length
      let m50 := if 50 ≤ n then some (lastD (df2.getCol "MA50")) else none
      let m200 := if 200 ≤ n then some (lastD (df2.getCol "MA200")) else none
      let df3 := addRSI df2
      some ⟨latest, pct, pmax (df.getCol "High"), pmin (df.getCol "Low"), av,
            m50, m200, df3.getCol "RSI", df3⟩
  | _, _, _ => none

/-- The surfaced w-window moving-average metric over a close series:
rolling(w).mean() read at iloc[-1], shown only when the series has at
least w points (lines 213-223). -/
def maMetric (w : Nat) (close : List PFloat) : Option PFloat :=
  if w ≤ close.length then (rollingMean w close).get? (close.length - 1) else none

/-! ## Currency formatting (StockAnalyzer.format_currency, lines 84-88) -/

/-- Insert a comma after every third digit of a reversed digit list (the
thousands grouping of the Python format specifier with a comma). -/
def commaRev : List Char → Nat → List Char
  | [], _ => []
  | [c], _ => [c]
  | c :: rest, k => if k == 2 then c :: ',' :: commaRev rest 0 else c :: commaRev rest (k + 1)

/-- Fixed 2-decimal rendering of a non-negative rational, with optional
thousands grouping: what a comma-grouped or plain .2f format produces. -/
def fmt2nn (v : Q) (grouped : Bool) : List Char :=
  let cents := (v.mul (Q.ofInt 100)).rhe
  let c := cents.toNat
  let ip := c / 100
  let fp := c % 100
  let ipDigits := Nat.toDigits 10 ip
  let ipStr := if grouped then (commaRev ipDigits.reverse 0).reverse else ipDigits
  ipStr ++ '.' :: ((if fp < 10 then ['0'] else []) ++ Nat.toDigits 10 fp)

/-- Fixed 2-decimal rendering of a rational, sign first. -/
def fmt2 (v : Q) (grouped : Bool) : List Char :=
  if v.num < 0 then '-' :: fmt2nn v.neg grouped else fmt2nn v grouped

/-- format_currency (lines 84-88): the rupee sign selects the grouped
format f-string, every other symbol the plain one. -/
def format_currency (value : Q) (currency_symbol : String) : String :=
  if currency_symbol = "₹" then currency_symbol ++ String.mk (fmt2 value true)
  else currency_symbol ++ String.mk (fmt2 value false)

/-- Suffix-only stripping of a recognized domestic suffix: the alternative
reading of the Foreign rule that claim C10 contrasts with the source
(which removes occurrences anywhere, not only a trailing suffix). -/
def stripSuffixOnly (s : List Char) : List Char :=
  if sNS.isSuffixOf s then s.take (s.length - 3)
  else if sBO.isSuffixOf s then s.take (s.length - 3)
  else s

/-- Sum of a list of exact rationals. -/
def qsum (l : List Q) : Q := l.foldr Q.add (Q.ofInt 0)

/-! ## Helper lemmas -/

theorem list_get?_map {α β : Type} (f : α → β) :
    ∀ (l : List α) (i : Nat), (l.map f).get? i = (l.get? i).map f := by
  intro l
  induction l with
  | nil => intro i; cases i <;> rfl
  | cons x xs ih =>
    intro i
    cases i with
    | zero => rfl
    | succ j => exact ih j

theorem list_get?_zipWith {α β γ : Type} (f : α → β → γ) :
    ∀ (a : List α) (b : List β) (i : Nat),
      (List.zipWith f a b).get? i =
        match a.get? i, b.get? i with
        | some x, some y => some (f x y)
        | _, _ => none := by
  intro a
  induction a with
  | nil => intro b i; cases b <;> cases i <;> rfl
  | cons x xs ih =>
    intro b i
    cases b with
    | nil =>
      cases i with
      | zero => rfl
      | succ j => cases h : (x :: xs).get? (j + 1) <;> simp [h]
    | cons y ys =>
      cases i with
      | zero => rfl
      | succ j => exact ih ys j

theorem list_get?_range {n i : Nat} (h : i < n) : (List.range n).get? i = some i := by
  rw [List.get?_eq_getElem?, List.getElem?_range h]

theorem list_get?_range_map {α : Type} (f : Nat → α) {n i : Nat} (h : i < n) :
    ((List.range n).map f).get? i = some (f i) := by
  rw [list_get?_map, list_get?_range h, Option.map_some']

theorem psum_map_fin (l : List Q) : psum (l.map PFloat.fin) = PFloat.fin (qsum l) := by
  induction l with
  | nil => rfl
  | cons x t ih =>
    show PFloat.add (PFloat.fin x) (psum (t.map PFloat.fin)) = PFloat.fin (Q.add x (qsum t))
    rw [ih]
    rfl

theorem replaceAllF_no_match (pat rep : List Char) :
    ∀ (fuel : Nat) (l : List Char), hasMatch pat l = false → replaceAllF pat rep fuel l = l := by
  intro fuel
  induction fuel with
  | zero => intro l _; cases l <;> rfl
  | succ n ih =>
    intro l h
    cases l with
    | nil => rfl
    | cons c rest =>
      have h' : pat.isPrefixOf (c :: rest) = false ∧ hasMatch pat rest = false := by
        simpa [hasMatch, Bool.or_eq_false_iff] using h
      simp [replaceAllF, h'.1, ih rest h'.2]

theorem replaceAll_no_match (pat rep l : List Char) (h : hasMatch pat l = false) :
    replaceAll pat rep l = l :=
  replaceAllF_no_match pat rep l.length l h

theorem replaceAllF_length_le (pat : List Char) :
    ∀ (fuel : Nat) (l : List Char), (replaceAllF pat [] fuel l).length ≤ l.length := by
  intro fuel
  induction fuel with
  | zero => intro l; cases l <;> simp [replaceAllF]
  | succ n ih =>
    intro l
    cases l with
    | nil => simp [replaceAllF]
    | cons c rest =>
      by_cases hp : pat.isPrefixOf (c :: rest) = true
      · have h1 : replaceAllF pat [] (n + 1) (c :: rest)
            = replaceAllF pat [] n (rest.drop (pat.length - 1)) := by
          simp [replaceAllF, hp]
        have h2 := ih (rest.drop (pat.length - 1))
        have h3 : (rest.drop (pat.length - 1)).length ≤ rest.length := by
          rw [List.length_drop]
          omega
        rw [h1]
        simp only [List.length_cons]
        omega
      · have hp' : pat.isPrefixOf (c :: rest) = false := by
          revert hp
          cases pat.isPrefixOf (c :: rest) <;> simp
        have h1 : replaceAllF pat [] (n + 1) (c :: rest) = c :: replaceAllF pat [] n rest := by
          simp [replaceAllF, hp']
        have h2 := ih rest
        rw [h1]
        simp only [List.length_cons]
        omega

theorem replaceAllF_length_lt (pat : List Char) (hp : pat ≠ []) :
    ∀ (fuel : Nat) (l : List Char), hasMatch pat l = true → l.length ≤ fuel →
      (replaceAllF pat [] fuel l).length < l.length := by
  intro fuel
  induction fuel with
  | zero =>
    intro l hm hl
    have hnil : l = [] := by
      cases l with
      | nil => rfl
      | cons a t => simp at hl
    subst hnil
    rw [show hasMatch pat [] = pat.isEmpty from rfl] at hm
    cases pat with
    | nil => exact absurd rfl hp
    | cons p ps => simp [List.isEmpty] at hm
  | succ n ih =>
    intro l hm hl
    cases l with
    | nil =>
      rw [show hasMatch pat [] = pat.isEmpty from rfl] at hm
      cases pat with
      | nil => exact absurd rfl hp
      | cons p ps => simp [List.isEmpty] at hm
    | cons c rest =>
      by_cases hpre : pat.isPrefixOf (c :: rest) = true
      · have h1 : replaceAllF pat [] (n + 1) (c :: rest)
            = replaceAllF pat [] n (rest.drop (pat.length - 1)) := by
          simp [replaceAllF, hpre]
        have h2 := replaceAllF_length_le pat n (rest.drop (pat.length - 1))
        have h3 : (rest.drop (pat.length - 1)).length ≤ rest.length := by
          rw [List.length_drop]
          omega
        rw [h1]
        simp only [List.length_cons]
        omega
      · have hpre' : pat.isPrefixOf (c :: rest) = false := by
          revert hpre
          cases pat.isPrefixOf (c :: rest) <;> simp
        have hm' : hasMatch pat rest = true := by
          have hstep : hasMatch pat (c :: rest)
              = (pat.isPrefixOf (c :: rest) || hasMatch pat rest) := rfl
          rw [hstep, hpre'] at hm
          simpa using hm
        have h1 : replaceAllF pat [] (n + 1) (c :: rest) = c :: replaceAllF pat [] n rest := by
          simp [replaceAllF, hpre']
        have hl' : rest.length ≤ n := by
          simp only [List.length_cons] at hl
          omega
        have h2 := ih rest hm' hl'
        rw [h1]
        simp only [List.length_cons]
        omega

theorem replaceAll_length_le (pat l : List Char) : (replaceAll pat [] l).length ≤ l.length :=
  replaceAllF_length_le pat l.length l

theorem replaceAll_length_lt (pat l : List Char) (hp : pat ≠ []) (h : hasMatch pat l = true) :
    (replaceAll pat [] l).length < l.length :=
  replaceAllF_length_lt pat hp l.length l h (le_refl _)

theorem any_map_overwrite (c c' : String) (v : List PFloat) :
    ∀ l : List (String × List PFloat),
      (l.map (fun p => if p.1 == c' then (c', v) else p)).any (fun p => p.1 == c) =
        l.any (fun p => p.1 == c) := by
  intro l
  induction l with
  | nil => rfl
  | cons p t ih =>
    simp only [List.map_cons, List.any_cons, ih]
    by_cases hp : p.1 = c'
    · simp [hp]
    · simp [beq_iff_eq, hp]

theorem hasCol_setCol_self (df : Frame) (c : String) (v : List PFloat) :
    (df.setCol c v).hasCol c = true := by
  unfold Frame.setCol
  by_cases h : df.hasCol c = true
  · rw [if_pos h]
    show (df.cols.map (fun p => if p.1 == c then (c, v) else p)).any (fun p => p.1 == c) = true
    rw [any_map_overwrite]
    exact h
  · rw [if_neg h]
    show (df.cols ++ [(c, v)]).any (fun p => p.1 == c) = true
    rw [List.any_append]
    have h1 : ([(c, v)].any fun p => p.1 == c) = true := by simp
    rw [h1, Bool.or_true]

theorem hasCol_setCol_other (df : Frame) {c c' : String} (v : List PFloat) (h : c ≠ c') :
    (df.setCol c' v).hasCol c = df.hasCol c := by
  unfold Frame.setCol
  by_cases hc : df.hasCol c' = true
  · rw [if_pos hc]
    show (df.cols.map (fun p => if p.1 == c' then (c', v) else p)).any (fun p => p.1 == c)
        = df.hasCol c
    rw [any_map_overwrite]
    rfl
  · rw [if_neg hc]
    show (df.cols ++ [(c', v)]).any (fun p => p.1 == c) = df.hasCol c
    rw [List.any_append]
    have h1 : ([(c', v)].any fun p => p.1 == c) = false := by
      simp [beq_iff_eq, Ne.symm h]
    rw [h1, Bool.or_false]
    rfl

/-! ## Concrete inputs used by counterexamples and witnesses -/

/-- A constant (hence monotonically non-decreasing) 15-point close series. -/
def const15 : List PFloat := List.replicate 15 (PFloat.fin (Q.ofInt 1))

/-- A strictly increasing 15-point close series 0,1,...,14. -/
def incr15 : List PFloat := (List.range 15).map (fun n => PFloat.fin (Q.ofInt n))

/-- A well-formed two-bar frame whose timestamps are out of order. -/
def dfOutOfOrder : Frame :=
  ⟨[2, 1],
   [("Open", [PFloat.fin (Q.ofInt 1), PFloat.fin (Q.ofInt 1)]),
    ("High", [PFloat.fin (Q.ofInt 2), PFloat.fin (Q.ofInt 2)]),
    ("Low", [PFloat.fin (Q.ofInt 1), PFloat.fin (Q.ofInt 1)]),
    ("Close", [PFloat.fin (Q.ofInt 1), PFloat.fin (Q.ofInt 2)]),
    ("Volume", [PFloat.fin (Q.ofInt 10), PFloat.fin (Q.ofInt 20)])]⟩

/-- A frame with all required columns but zero bars. -/
def dfZeroRows : Frame :=
  ⟨[], [("Open", []), ("High", []), ("Low", []), ("Close", []), ("Volume", [])]⟩

/-- A one-bar frame missing the Volume column. -/
def dfMissingCols : Frame :=
  ⟨[1],
   [("Open", [PFloat.fin (Q.ofInt 1)]), ("High", [PFloat.fin (Q.ofInt 1)]),
    ("Low", [PFloat.fin (Q.ofInt 1)]), ("Close", [PFloat.fin (Q.ofInt 1)])]⟩

/-- A well-formed frame with exactly one bar. -/
def dfOneBar : Frame :=
  ⟨[1],
   [("Open", [PFloat.fin (Q.ofInt 1)]), ("High", [PFloat.fin (Q.ofInt 1)]),
    ("Low", [PFloat.fin (Q.ofInt 1)]), ("Close", [PFloat.fin (Q.ofInt 1)]),
    ("Volume", [PFloat.fin (Q.ofInt 5)])]⟩

/-- A well-formed frame with two bars in ascending order. -/
def dfTwoBar : Frame :=
  ⟨[1, 2],
   [("Open", [PFloat.fin (Q.ofInt 1), PFloat.fin (Q.ofInt 1)]),
    ("High", [PFloat.fin (Q.ofInt 2), PFloat.fin (Q.ofInt 3)]),
    ("Low", [PFloat.fin (Q.ofInt 1), PFloat.fin (Q.ofInt 1)]),
    ("Close", [PFloat.fin (Q.ofInt 1), PFloat.fin (Q.ofInt 2)]),
    ("Volume", [PFloat.fin (Q.ofInt 10), PFloat.fin (Q.ofInt 20)])]⟩

/-! ## C1: RSI when the 14-period average loss is zero -/

/-- C1 (counterexample): on the constant 15-point close series — which is
monotonically non-decreasing — the 14-period average loss is zero (and
defined) at index 13, the first defined index, yet the RSI computed by
lines 228-232 is NaN there (0/0 gives NaN, not an infinite RS), not 100
as the claim states. -/
theorem C1_rsi_counterexample :
    (avgLoss const15).get? 13 = some (PFloat.fin (Q.ofInt 0)) ∧
    (rsiSeries const15).get? 13 = some PFloat.nan ∧
    (rsiSeries const15).get? 13 ≠ some (PFloat.fin (Q.ofInt 100)) := by
  refine ⟨by decide, by decide, by decide⟩

/-- C1 (amended): whenever the 14-period average loss is zero AND the
14-period average gain is positive at some index, the RSI of lines
228-232 is exactly 100 there: RS is +infinity, 100/(1+RS) is 0, and
100 - 0 = 100.  When the average gain is zero as well (a constant
window), RS is 0/0 = NaN and the RSI is NaN, not 100. -/
theorem C1_rsi_saturation_amended (close : List PFloat) (i : Nat) (g z : Q)
    (hg : (avgGain close).get? i = some (PFloat.fin g)) (hgpos : 0 < g.num)
    (hz : (avgLoss close).get? i = some (PFloat.fin z)) (hz0 : z.num = 0) :
    (rsiSeries close).get? i = some (PFloat.fin (Q.ofInt 100)) := by
  have hrs : (rsSeries close).get? i = some (PFloat.div (PFloat.fin g) (PFloat.fin z)) := by
    unfold rsSeries
    rw [list_get?_zipWith, hg, hz]
  have hdiv : PFloat.div (PFloat.fin g) (PFloat.fin z) = PFloat.inf := by
    simp [PFloat.div, hz0, hgpos]
  unfold rsiSeries
  rw [list_get?_map, hrs, Option.map_some', hdiv]
  decide

/-- C1 (witness): the strictly increasing series 0..14 satisfies the
hypotheses at index 13 and its RSI there is exactly 100. -/
theorem C1_rsi_saturation_witness :
    (avgGain incr15).get? 13 = some (PFloat.fin (Q.mk' 13 14)) ∧
    0 < (Q.mk' 13 14).num ∧
    (avgLoss incr15).get? 13 = some (PFloat.fin (Q.ofInt 0)) ∧
    (Q.ofInt 0).num = 0 ∧
    (rsiSeries incr15).get? 13 = some (PFloat.fin (Q.ofInt 100)) :=
  ⟨by decide, by decide, by decide, by decide,
   C1_rsi_saturation_amended incr15 13 (Q.mk' 13 14) (Q.ofInt 0)
     (by decide) (by decide) (by decide) (by decide)⟩

/-! ## C2: SMA boundary behaviour -/

/-- C2: for w in {50, 200}, a close series of length exactly w has its
w-window moving-average metric defined at the last index and equal to the
mean of all closes, and a series shorter than w has the whole metric
omitted (the Show rule of lines 218-223 is length >= w). -/
theorem C2_sma_boundary (w : Nat) (close : List Q) (hw : w = 50 ∨ w = 200) :
    (close.length = w →
       maMetric w (close.map PFloat.fin)
         = some (PFloat.fin ((qsum close).div (Q.ofInt w)))) ∧
    (close.length < w → maMetric w (close.map PFloat.fin) = none) := by
  have hwz : ¬((Q.ofInt (w : Int)).num = 0) := by
    rcases hw with h | h <;> subst h <;> decide
  constructor
  · intro hlen
    have hw0 : 0 < w := by rcases hw with h | h <;> omega
    have hL : (close.map PFloat.fin).length = w := by simpa using hlen
    unfold maMetric
    rw [hL, if_pos (le_refl w)]
    unfold rollingMean
    rw [hL]
    have h1 : w - 1 < w := by omega
    rw [list_get?_range_map _ h1]
    have h2 : w - 1 + 1 = w := by omega
    rw [h2, if_pos (le_refl w), Nat.sub_self, List.drop_zero,
      List.take_of_length_le (le_of_eq hL), psum_map_fin]
    simp [PFloat.div, hwz]
  · intro hlen
    unfold maMetric
    rw [if_neg]
    intro hc
    rw [List.length_map] at hc
    omega

/-- C2 (witness): at w = 50, a 50-point constant series has the metric
defined and equal to the mean; a 49-point series has it omitted. -/
theorem C2_sma_boundary_witness :
    (List.replicate 50 (Q.ofInt 1)).length = 50 ∧
    maMetric 50 ((List.replicate 50 (Q.ofInt 1)).map PFloat.fin)
      = some (PFloat.fin ((qsum (List.replicate 50 (Q.ofInt 1))).div (Q.ofInt 50))) ∧
    (List.replicate 49 (Q.ofInt 1)).length < 50 ∧
    maMetric 50 ((List.replicate 49 (Q.ofInt 1)).map PFloat.fin) = none :=
  ⟨by decide,
   (C2_sma_boundary 50 (List.replicate 50 (Q.ofInt 1)) (Or.inl rfl)).1 (by decide),
   by decide,
   (C2_sma_boundary 50 (List.replicate 49 (Q.ofInt 1)) (Or.inl rfl)).2 (by decide)⟩

/-! ## C3: normalizer idempotence -/

/-- C3 (counterexample): normalization is not idempotent for the Foreign
market.  For 'A.N.NSS', removing the single '.NS' occurrence splices the
remaining characters into a new trailing '.NS' ('A.NS'), which a second
normalization removes, giving 'A'. -/
theorem C3_idempotence_counterexample :
    normalizeSymbol (normalizeSymbol "A.N.NSS".toList Market.foreign) Market.foreign
      ≠ normalizeSymbol "A.N.NSS".toList Market.foreign := by
  decide

/-- C3 (amended): normalization is idempotent for the Domestic market for
every symbol; for the Foreign market it is idempotent exactly on the
symbols whose once-normalized form contains no occurrence of '.NS' or
'.BO': such symbols are fixed by a second pass (second conjunct), while
any symbol whose once-normalized form still contains an occurrence is
strictly shortened by the second pass, hence changed (third conjunct) —
removal can splice together a new occurrence, so this is not all
symbols. -/
theorem C3_idempotence_amended :
    (∀ s : List Char,
       normalizeSymbol (normalizeSymbol s Market.domestic) Market.domestic
         = normalizeSymbol s Market.domestic) ∧
    (∀ s : List Char,
       hasMatch sNS (normalizeSymbol s Market.foreign) = false →
       hasMatch sBO (normalizeSymbol s Market.foreign) = false →
       normalizeSymbol (normalizeSymbol s Market.foreign) Market.foreign
         = normalizeSymbol s Market.foreign) ∧
    (∀ s : List Char,
       hasMatch sNS (normalizeSymbol s Market.foreign) = true ∨
       hasMatch sBO (normalizeSymbol s Market.foreign) = true →
       normalizeSymbol (normalizeSymbol s Market.foreign) Market.foreign
         ≠ normalizeSymbol s Market.foreign) := by
  refine ⟨?_, ?_, ?_⟩
  · intro s
    by_cases h : (sNS.isSuffixOf s || sBO.isSuffixOf s) = true
    · simp [normalizeSymbol, h]
    · have h' : (sNS.isSuffixOf s || sBO.isSuffixOf s) = false := by
        revert h
        cases sNS.isSuffixOf s || sBO.isSuffixOf s <;> simp
      have hsuf : sNS.isSuffixOf (s ++ sNS) = true :=
        List.isSuffixOf_iff_suffix.mpr (List.suffix_append s sNS)
      simp [normalizeSymbol, h', hsuf]
  · intro s hn hb
    show replaceAll sBO [] (replaceAll sNS [] (normalizeSymbol s Market.foreign))
        = normalizeSymbol s Market.foreign
    rw [replaceAll_no_match sNS [] _ hn, replaceAll_no_match sBO [] _ hb]
  · intro s hor
    have hlt : (replaceAll sBO [] (replaceAll sNS [] (normalizeSymbol s Market.foreign))).length
        < (normalizeSymbol s Market.foreign).length := by
      by_cases hns : hasMatch sNS (normalizeSymbol s Market.foreign) = true
      · have h1 := replaceAll_length_lt sNS (normalizeSymbol s Market.foreign) (by decide) hns
        have h2 := replaceAll_length_le sBO
          (replaceAll sNS [] (normalizeSymbol s Market.foreign))
        omega
      · have hns' : hasMatch sNS (normalizeSymbol s Market.foreign) = false := by
          revert hns
          cases hasMatch sNS (normalizeSymbol s Market.foreign) <;> simp
        have hbo : hasMatch sBO (normalizeSymbol s Market.foreign) = true := by
          rcases hor with h | h
          · exact absurd h (by rw [hns']; decide)
          · exact h
        rw [replaceAll_no_match sNS [] _ hns']
        exact replaceAll_length_lt sBO (normalizeSymbol s Market.foreign) (by decide) hbo
    intro heq
    have hlen := congrArg List.length heq
    rw [show normalizeSymbol (normalizeSymbol s Market.foreign) Market.foreign
        = replaceAll sBO [] (replaceAll sNS [] (normalizeSymbol s Market.foreign)) from rfl]
      at hlen
    omega

/-- C3 (witness): the Domestic part and the no-occurrence Foreign part
instantiated at 'AAPL', and the still-an-occurrence Foreign part
instantiated at 'A.N.NSS', whose once-normalized form 'A.NS' still
contains '.NS'. -/
theorem C3_idempotence_witness :
    normalizeSymbol (normalizeSymbol "AAPL".toList Market.domestic) Market.domestic
      = normalizeSymbol "AAPL".toList Market.domestic ∧
    hasMatch sNS (normalizeSymbol "AAPL".toList Market.foreign) = false ∧
    hasMatch sBO (normalizeSymbol "AAPL".toList Market.foreign) = false ∧
    normalizeSymbol (normalizeSymbol "AAPL".toList Market.foreign) Market.foreign
      = normalizeSymbol "AAPL".toList Market.foreign ∧
    hasMatch sNS (normalizeSymbol "A.N.NSS".toList Market.foreign) = true ∧
    normalizeSymbol (normalizeSymbol "A.N.NSS".toList Market.foreign) Market.foreign
      ≠ normalizeSymbol "A.N.NSS".toList Market.foreign :=
  ⟨C3_idempotence_amended.1 "AAPL".toList, by decide, by decide,
   C3_idempotence_amended.2.1 "AAPL".toList (by decide) (by decide),
   by decide,
   C3_idempotence_amended.2.2 "A.N.NSS".toList (Or.inl (by decide))⟩

/-! ## C4: validator success and output order -/

/-- C4 (counterexample): a well-formed two-bar frame with descending
timestamps validates successfully but is returned exactly as given — the
validator of lines 62-76 never re-sorts, so the output is not in
ascending timestamp order. -/
theorem C4_order_counterexample :
    process_stock_data (some dfOutOfOrder) = (some dfOutOfOrder, []) ∧
    sortedAsc dfOutOfOrder.index = false := by
  refine ⟨by decide, by decide⟩

/-- C4 (amended): any non-empty frame carrying all required columns
validates successfully and is returned unchanged, with no transformation
at all; in particular the input order is preserved, so the output is
ascending only when the input already was. -/
theorem C4_validator_amended (df : Frame) (h1 : df.isEmptyDf = false)
    (h2 : requiredColumns.all (fun c => df.hasCol c) = true) :
    process_stock_data (some df) = (some df, []) := by
  simp [process_stock_data, h1, h2]

/-- C4 (witness): the ascending two-bar frame validates to itself. -/
theorem C4_validator_witness :
    dfTwoBar.isEmptyDf = false ∧
    requiredColumns.all (fun c => dfTwoBar.hasCol c) = true ∧
    process_stock_data (some dfTwoBar) = (some dfTwoBar, []) :=
  ⟨by decide, by decide, C4_validator_amended dfTwoBar (by decide) (by decide)⟩

/-! ## C5: validator failure modes -/

/-- C5 (counterexample): the validator has no distinct error kinds.  An
absent input and a zero-bar input both return None with no message at all
(identical results), and the Option part of the result for a zero-bar
input is the same None produced for a frame missing a required column, so
the two failures are not distinguishable in the returned value. -/
theorem C5_errors_counterexample :
    process_stock_data (some dfZeroRows) = (none, []) ∧
    process_stock_data none = (none, []) ∧
    (process_stock_data (some dfZeroRows)).1 = (process_stock_data (some dfMissingCols)).1 := by
  refine ⟨by decide, by decide, by decide⟩

/-- C5 (amended): an empty frame fails silently with the bare None (no
error report of any kind, same as an absent input); a non-empty frame
missing a required column fails with None plus the single error message
'Missing required columns in data'.  Only that side-channel message, not
the returned value, separates the two failures. -/
theorem C5_errors_amended (df : Frame) :
    (df.isEmptyDf = true → process_stock_data (some df) = (none, [])) ∧
    (df.isEmptyDf = false → requiredColumns.all (fun c => df.hasCol c) = false →
       process_stock_data (some df) = (none, ["Missing required columns in data"])) := by
  constructor
  · intro h
    simp [process_stock_data, h]
  · intro h1 h2
    simp [process_stock_data, h1, h2]

/-- C5 (witness): both failure branches at concrete frames. -/
theorem C5_errors_witness :
    dfZeroRows.isEmptyDf = true ∧
    process_stock_data (some dfZeroRows) = (none, []) ∧
    dfMissingCols.isEmptyDf = false ∧
    requiredColumns.all (fun c => dfMissingCols.hasCol c) = false ∧
    process_stock_data (some dfMissingCols) = (none, ["Missing required columns in data"]) :=
  ⟨by decide, (C5_errors_amended dfZeroRows).1 (by decide), by decide, by decide,
   (C5_errors_amended dfMissingCols).2 (by decide) (by decide)⟩

/-! ## C6: fewer than 2 bars -/

/-- C6 (counterexample): a one-bar frame passes validation, but the
statistics block then dies on Close.iloc[-2] (line 200): the whole
key-statistics and indicator section is aborted (none) — there is no
reported InsufficientHistory state, no N/A, and the remaining indicators
do not compute. -/
theorem C6_history_counterexample :
    process_stock_data (some dfOneBar) = (some dfOneBar, []) ∧
    renderStats dfOneBar = none := by
  refine ⟨by decide, by decide⟩

/-- C6 (amended): for any frame whose Close series has fewer than 2 bars,
the change computation raises (iloc[-2] is an IndexError caught only by
the outer try/except), aborting every metric, the moving averages and the
RSI of the section — the result is the aborted state, not a non-fatal
N/A. -/
theorem C6_history_amended (df : Frame) (h : (df.getCol "Close").length < 2) :
    renderStats df = none := by
  have h2 : ilocNeg (df.getCol "Close") 2 = none := by
    unfold ilocNeg
    rw [if_neg]
    rintro ⟨-, hle⟩
    omega
  cases h1 : ilocNeg (df.getCol "Close") 1 <;>
    cases h3 : pInt (pmean (df.getCol "Volume")) <;>
      simp [renderStats, h1, h2, h3]

/-- C6 (witness): the zero-bar frame has a Close series shorter than 2
and its statistics section is the aborted state. -/
theorem C6_history_witness :
    (dfZeroRows.getCol "Close").length < 2 ∧ renderStats dfZeroRows = none :=
  ⟨by decide, C6_history_amended dfZeroRows (by decide)⟩

/-! ## C7: domestic suffix handling -/

/-- C7: for the Domestic market, a symbol ending in neither '.NS' nor
'.BO' gains exactly the one default suffix '.NS', and a symbol already
ending in a recognized suffix is returned unchanged (lines 24-28). -/
theorem C7_domestic_suffix (s : List Char) :
    (sNS.isSuffixOf s = false → sBO.isSuffixOf s = false →
       normalizeSymbol s Market.domestic = s ++ sNS) ∧
    (sNS.isSuffixOf s = true ∨ sBO.isSuffixOf s = true →
       normalizeSymbol s Market.domestic = s) := by
  constructor
  · intro h1 h2
    simp [normalizeSymbol, h1, h2]
  · intro h
    rcases h with h | h <;> simp [normalizeSymbol, h]

/-- C7 (witness): 'TCS' gains '.NS'; 'TCS.NS' and 'TCS.BO' pass through. -/
theorem C7_domestic_suffix_witness :
    normalizeSymbol "TCS".toList Market.domestic = "TCS".toList ++ sNS ∧
    normalizeSymbol "TCS.NS".toList Market.domestic = "TCS.NS".toList ∧
    normalizeSymbol "TCS.BO".toList Market.domestic = "TCS.BO".toList :=
  ⟨(C7_domestic_suffix "TCS".toList).1 (by decide) (by decide),
   (C7_domestic_suffix "TCS.NS".toList).2 (Or.inl (by decide)),
   (C7_domestic_suffix "TCS.BO".toList).2 (Or.inr (by decide))⟩

/-! ## C8: mutation of the validated series -/

/-- C8 (counterexample): the validator returns the very frame it was
given (no copy), and the indicator step of lines 214-232 assigns the
derived columns onto that frame itself, so after indicator computation
the frame differs from the series the validator produced. -/
theorem C8_mutation_counterexample :
    process_stock_data (some dfTwoBar) = (some dfTwoBar, []) ∧
    addRSI (addIndicatorsMA dfTwoBar) ≠ dfTwoBar := by
  refine ⟨by decide, by decide⟩

/-- C8 (amended): the indicator computations write MA50, MA200 and RSI
directly onto the validated frame (in-place column assignment, no working
copy): for any frame not already carrying an RSI column, the frame after
the indicator step carries one and therefore differs from the series the
validator produced. -/
theorem C8_mutation_amended (df : Frame) (h : df.hasCol "RSI" = false) :
    addRSI (addIndicatorsMA df) ≠ df ∧
    (addRSI (addIndicatorsMA df)).hasCol "RSI" = true := by
  have h2 : (addRSI (addIndicatorsMA df)).hasCol "RSI" = true := by
    unfold addRSI
    exact hasCol_setCol_self _ _ _
  refine ⟨?_, h2⟩
  intro heq
  rw [heq, h] at h2
  exact absurd h2 (by decide)

/-- C8 (witness): instantiated at the one-bar frame. -/
theorem C8_mutation_witness :
    dfOneBar.hasCol "RSI" = false ∧
    addRSI (addIndicatorsMA dfOneBar) ≠ dfOneBar ∧
    (addRSI (addIndicatorsMA dfOneBar)).hasCol "RSI" = true := by
  have h := C8_mutation_amended dfOneBar (by decide)
  exact ⟨by decide, h.1, h.2⟩

/-! ## C9: currency formatting -/

/-- C9: format_currency (lines 84-88) selects the thousands-grouped
2-decimal form exactly for the rupee symbol and the plain 2-decimal form
for every other symbol; at 1234.5 the two forms render as claimed. -/
theorem C9_format_currency :
    format_currency (Q.mk' 2469 2) "₹" = "₹1,234.50" ∧
    format_currency (Q.mk' 2469 2) "$" = "$1234.50" ∧
    (∀ sym : String, sym ≠ "₹" → format_currency (Q.mk' 2469 2) sym = sym ++ "1234.50") := by
  refine ⟨by decide, by decide, ?_⟩
  intro sym h
  unfold format_currency
  rw [if_neg h]
  have hplain : String.mk (fmt2 (Q.mk' 2469 2) false) = "1234.50" := by decide
  rw [hplain]

/-- C9 (witness): the universally quantified plain branch at '$'. -/
theorem C9_format_currency_witness :
    ("$" : String) ≠ "₹" ∧ format_currency (Q.mk' 2469 2) "$" = "$" ++ "1234.50" :=
  ⟨by decide, C9_format_currency.2.2 "$" (by decide)⟩

/-! ## C10: foreign stripping removes occurrences anywhere -/

/-- C10: for the Foreign market the source removes every '.NS' and then
'.BO' occurrence anywhere in the symbol (line 30), not only a trailing
suffix: on 'ABC.NSXYZ' (occurrence mid-string) the result drops the
occurrence while suffix-only stripping would leave the symbol unchanged,
and on 'A.BOB' the embedded '.BO' is dropped as well. -/
theorem C10_strip_everywhere :
    normalizeSymbol "ABC.NSXYZ".toList Market.foreign = "ABCXYZ".toList ∧
    normalizeSymbol "A.BOB".toList Market.foreign = "AB".toList ∧
    stripSuffixOnly "ABC.NSXYZ".toList = "ABC.NSXYZ".toList ∧
    normalizeSymbol "ABC.NSXYZ".toList Market.foreign ≠ stripSuffixOnly "ABC.NSXYZ".toList := by
  refine ⟨by decide, by decide, by decide, by decide⟩
